import Mathlib

/-!
Verification of the avito-ads-parser pipeline: a shallow embedding of
`src/parser.py`, `src/enricher.py` and `src/analyzer.py`, together with
theorems about the extraction, enrichment and coverage-analysis stages.

Records (Python `dict`) are modelled as association lists of string pairs;
HTTP interaction is modelled by an environment assigning to every batch
index and attempt index the response the remote service produces.
-/

set_option autoImplicit false

namespace Avito

/-! ## Dictionaries (Python `dict` values, modelled as association lists) -/

/-- A Python dictionary with string keys and string values, as produced by
the parser (`Ad.to_dict`) and by the classification API (one JSON object). -/
abbrev Dict := List (String × String)

/-- Python dictionary lookup `d[key]` / `d.get(key)`: the first entry whose
key matches, if any. -/
def alookup (key : String) : Dict → Option String
  | [] => none
  | p :: rest => if p.1 = key then some p.2 else alookup key rest

/-- Python `{**a, **b}`: keys of `a` keep their position, values are taken
from `b` when present there; keys only in `b` follow, in order. -/
def dictMerge (a b : Dict) : Dict :=
  a.map (fun p =>
    match alookup p.1 b with
    | some v => (p.1, v)
    | none => p)
  ++ b.filter (fun p => (alookup p.1 a).isNone)

/-! ## Enricher: `src/enricher.py` -/

/-- The outcome the HTTP layer delivers for one `client.post` call in
`enrich_batch`: a response with a status code (for status 200 the result of
`response.json()` parsing: `some processed_data` on success, `none` when the
body is unparseable), a request timeout (`httpx.TimeoutException`), or any
other transport fault (the final `except Exception` arm). -/
inductive Response where
  | http (status : Nat) (parsed : Option (List Dict))
  | timeoutExc
  | otherExc
deriving DecidableEq, Repr

/-- The `EnrichmentStats` dataclass of `enricher.py`. -/
structure EnrichmentStats where
  total_sent : Nat := 0
  total_success : Nat := 0
  total_failed : Nat := 0
  rate_limit_hits : Nat := 0
  timeout_errors : Nat := 0
  other_errors : Nat := 0
  retry_count : Nat := 0
deriving DecidableEq, Repr

/-- Observable state threaded through the enrichment operation: the mutable
statistics object plus the trace of payload title lists actually posted to
the API, in send order (one entry per `client.post` call). -/
structure EnrichState where
  stats : EnrichmentStats
  requests : List (List String)
deriving DecidableEq, Repr

/-- The state at the start of `enrich_all_ads`: fresh statistics, no
requests sent yet. -/
def initState : EnrichState := ⟨{}, []⟩

/-- Exceptions that can escape `enrich_all_ads`: `AuthError` raised on a 401
response, the `IndexError` from `batch[j]` in the merge loop, and the
`KeyError` from `a["title"]` on a record without a title. -/
inductive PyError where
  | authError
  | indexError
  | keyError
deriving DecidableEq, Repr

/-- `stats.total_sent += len(titles)` followed by the `client.post` call:
the payload joins the request trace. -/
def recordRequest (titles : List String) (st : EnrichState) : EnrichState :=
  ⟨{ st.stats with total_sent := st.stats.total_sent + titles.length },
   st.requests ++ [titles]⟩

/-- `stats.total_success += n`. -/
def addSuccess (n : Nat) (st : EnrichState) : EnrichState :=
  ⟨{ st.stats with total_success := st.stats.total_success + n }, st.requests⟩

/-- `stats.other_errors += n`. -/
def addOtherErrors (n : Nat) (st : EnrichState) : EnrichState :=
  ⟨{ st.stats with other_errors := st.stats.other_errors + n }, st.requests⟩

/-- `stats.rate_limit_hits += 1`. -/
def addRateLimitHit (st : EnrichState) : EnrichState :=
  ⟨{ st.stats with rate_limit_hits := st.stats.rate_limit_hits + 1 }, st.requests⟩

/-- `stats.retry_count += 1`. -/
def addRetry (st : EnrichState) : EnrichState :=
  ⟨{ st.stats with retry_count := st.stats.retry_count + 1 }, st.requests⟩

/-- `stats.timeout_errors += n`. -/
def addTimeoutErrors (n : Nat) (st : EnrichState) : EnrichState :=
  ⟨{ st.stats with timeout_errors := st.stats.timeout_errors + n }, st.requests⟩

/-- `stats.total_failed += n`. -/
def addFailed (n : Nat) (st : EnrichState) : EnrichState :=
  ⟨{ st.stats with total_failed := st.stats.total_failed + n }, st.requests⟩

/-- The retry loop of `enrich_batch` (`for attempt in range(retry)`), with
`attempt` the Python loop index of the next iteration and `fuel` the number
of iterations left (`retry - attempt`).  Each iteration counts the titles as
sent, records the posted payload, and dispatches on the response exactly as
the `if`/`elif`/`except` chain of the source does; falling out of the loop
adds the batch size to `total_failed`.  The first component is
`Except.error ()` precisely when `AuthError` is raised.  On a timeout,
`retry_count` is incremented only when this was not the last allowed
attempt (`if attempt < retry - 1`, i.e. remaining fuel is non-zero). -/
def enrichBatchGo (titles : List String) (resp : Nat → Response) :
    Nat → Nat → EnrichState → Except Unit (List Dict) × EnrichState
  | _, 0, st => (.ok [], addFailed titles.length st)
  | attempt, fuel + 1, st =>
      match resp attempt with
      | .http status parsed =>
          if status = 200 then
            match parsed with
            | some processed =>
                (.ok processed, addSuccess processed.length (recordRequest titles st))
            | none => (.ok [], addOtherErrors 1 (recordRequest titles st))
          else if status = 401 then
            (.error (), addOtherErrors titles.length (recordRequest titles st))
          else if status = 429 then
            enrichBatchGo titles resp (attempt + 1) fuel
              (addRetry (addRateLimitHit (recordRequest titles st)))
          else if 500 ≤ status then
            enrichBatchGo titles resp (attempt + 1) fuel
              (addRetry (recordRequest titles st))
          else
            (.ok [], addOtherErrors titles.length (recordRequest titles st))
      | .timeoutExc =>
          enrichBatchGo titles resp (attempt + 1) fuel
            (if fuel = 0 then addTimeoutErrors titles.length (recordRequest titles st)
             else addRetry (addTimeoutErrors titles.length (recordRequest titles st)))
      | .otherExc =>
          (.ok [], addOtherErrors titles.length (recordRequest titles st))

/-- `enrich_batch(titles, client, stats, retry)`, with `resp a` the response
the network produces for attempt `a` of this batch. -/
def enrichBatch (titles : List String) (resp : Nat → Response) (retry : Nat)
    (st : EnrichState) : Except Unit (List Dict) × EnrichState :=
  enrichBatchGo titles resp 0 retry st

/-- The title extraction `[a["title"] for a in batch]`; `none` models the
`KeyError` raised when some record has no `"title"` key. -/
def extractTitles : List Dict → Option (List String)
  | [] => some []
  | a :: rest =>
      match alookup "title" a with
      | some t => (extractTitles rest).map (t :: ·)
      | none => none

/-- The merge loop of `enrich_all_ads`
(`for j, enriched_item in enumerate(enriched): merged = {**batch[j], **enriched_item}`),
processing the classification objects from position `j` on; `batch[j]` out
of range raises `IndexError`. -/
def mergeEnrichedGo (batch : List Dict) : List Dict → Nat → Except PyError (List Dict)
  | [], _ => .ok []
  | e :: rest, j =>
      match batch.get? j with
      | some orig => (mergeEnrichedGo batch rest (j + 1)).map (fun tl => dictMerge orig e :: tl)
      | none => .error .indexError

/-- The whole merge loop for one batch, starting at position 0. -/
def mergeEnriched (batch enriched : List Dict) : Except PyError (List Dict) :=
  mergeEnrichedGo batch enriched 0

/-- Fuel-indexed slicing loop; with `b > 0`, fuel `l.length` is always
enough, each step consuming at least one element. -/
def chunksGo {α : Type _} (b : Nat) : Nat → List α → List (List α)
  | 0, _ => []
  | _, [] => []
  | fuel + 1, x :: xs => (x :: xs).take b :: chunksGo b fuel ((x :: xs).drop b)

/-- The batch slicing `ads[i : i + batch_size]` for
`i in range(0, len(ads), batch_size)`.  Defined for `b > 0` (Python raises
`ValueError` on a zero step; no claim concerns that case). -/
def chunks {α : Type _} (b : Nat) (l : List α) : List (List α) :=
  chunksGo b l.length l

/-- The batch loop of `enrich_all_ads`, processing the remaining chunks,
with `k` the index of the next chunk, `acc` the `results` list so far and
`st` the shared statistics/request state.  A raised exception carries the
state at the point it escapes. -/
def enrichAllGo (env : Nat → Nat → Response) :
    List (List Dict) → Nat → List Dict → EnrichState →
    Except PyError (List Dict) × EnrichState
  | [], _, acc, st => (.ok acc, st)
  | batch :: rest, k, acc, st =>
      match extractTitles batch with
      | none => (.error .keyError, st)
      | some titles =>
          match enrichBatch titles (env k) 3 st with
          | (.error _, st') => (.error .authError, st')
          | (.ok enriched, st') =>
              match mergeEnriched batch enriched with
              | .error e => (.error e, st')
              | .ok merged => enrichAllGo env rest (k + 1) (acc ++ merged) st'

/-- `enrich_all_ads(ads, batch_size, rate_limit_delay)`, with `env k a` the
response the remote service gives to attempt `a` of batch `k`; `enrich_batch`
is called with its default `retry = 3`.  (The inter-batch sleep has no
observable effect here and is not modelled.) -/
def enrichAllAds (ads : List Dict) (batchSize : Nat) (env : Nat → Nat → Response) :
    Except PyError (List Dict) × EnrichState :=
  enrichAllGo env (chunks batchSize ads) 0 [] initState

/-- The titles one batch contributes to its request payloads. -/
def titlesOf (batch : List Dict) : List String :=
  batch.map (fun ad => (alookup "title" ad).getD "")

/-- A response on which the retry loop of `enrich_batch` tries again:
HTTP 429, HTTP status at least 500, or a request timeout. -/
def isRetryable : Response → Prop
  | .http s _ => s = 429 ∨ 500 ≤ s
  | .timeoutExc => True
  | .otherExc => False

/-- A response with HTTP status 401 (triggers `AuthError`). -/
def is401 : Response → Prop
  | .http s _ => s = 401
  | .timeoutExc => False
  | .otherExc => False

/-! ## Coverage analyzer: `src/analyzer.py` -/

/-- One row of an input table (`ads_enriched.csv` or `output.csv`) as read
by `pd.read_csv`, restricted to the columns the analyzer touches.  `none`
models a NaN cell (a missing value in the CSV). -/
structure InRow where
  group0 : Option String
  group1 : Option String
  group2 : Option String
  marka : Option String
  model : Option String
deriving DecidableEq, Repr

/-- A (group0, group1, group2) taxonomy key. -/
abbrev TaxKey := String × String × String

/-- The normalisation `df[col].fillna("").astype(str)` applied to the three
group columns, read off as the row's taxonomy key. -/
def nkey (r : InRow) : TaxKey :=
  (r.group0.getD "", r.group1.getD "", r.group2.getD "")

/-- `drop_duplicates` keeping first occurrences, as pandas does: the head
stays, and later occurrences of it are filtered out of the deduplicated
tail. -/
def dedupKeys {α : Type _} [DecidableEq α] : List α → List α
  | [] => []
  | a :: rest => a :: (dedupKeys rest).filter (fun x => x ≠ a)

/-- One row of the `missing_coverage` result table. -/
structure MissingRow where
  group0 : String
  group1 : String
  group2 : String
  marka : Option String
  model : Option String
  reason : String
deriving DecidableEq, Repr

/-- The taxonomy key of a result row. -/
def rowKey (r : MissingRow) : TaxKey := (r.group0, r.group1, r.group2)

/-- The DataFrame `find_missing_coverage` returns, together with whether the
`to_csv` save was executed on this code path. -/
structure MissingResult where
  columns : List String
  rows : List MissingRow
  saved : Bool
deriving DecidableEq, Repr

/-- `output_df[group_cols].value_counts()` for one key: how often the key
occurs among the (normalised) catalog rows. -/
def keyFreq (catalog : List InRow) (k : TaxKey) : Nat :=
  (catalog.filter (fun r => nkey r = k)).length

/-- Insertion step of the descending sort on the frequency column. -/
def insertByFreq (f : MissingRow → Nat) (x : MissingRow) :
    List MissingRow → List MissingRow
  | [] => [x]
  | y :: ys => if f y < f x then x :: y :: ys else y :: insertByFreq f x ys

/-- `sort_values("frequency", ascending=False)`: a sort of the result rows
by descending catalog frequency (ties keep a deterministic order; pandas
leaves tie order unspecified). -/
def sortByFreq (f : MissingRow → Nat) : List MissingRow → List MissingRow
  | [] => []
  | x :: xs => insertByFreq f x (sortByFreq f xs)

/-- `find_missing_coverage(enriched_path, output_path, output_missing_path)`
on the two loaded tables: deduplicate both key sets, keep the catalog keys
absent from the enriched keys, on the empty case return a
`(group0, group1, group2, reason)`-columned empty frame without saving;
otherwise join back onto the catalog for `marka`/`model`, deduplicate full
rows, tag the reason, sort by catalog key frequency and save. -/
def findMissingCoverage (enriched catalog : List InRow) : MissingResult :=
  let existing := dedupKeys (enriched.map nkey)
  let target := dedupKeys (catalog.map nkey)
  let missing := target.filter (fun k => k ∉ existing)
  if missing.isEmpty then
    ⟨["group0", "group1", "group2", "reason"], [], false⟩
  else
    let info := missing.flatMap (fun k =>
      (catalog.filter (fun r => nkey r = k)).map (fun r => (k, r.marka, r.model)))
    let deduped := dedupKeys info
    let rows := deduped.map (fun p =>
      MissingRow.mk p.1.1 p.1.2.1 p.1.2.2 p.2.1 p.2.2 "отсутствует")
    ⟨["group0", "group1", "group2", "marka", "model", "reason"],
      sortByFreq (fun r => keyFreq catalog (rowKey r)) rows, true⟩

/-- The dictionary `generate_coverage_report` returns. -/
structure CoverageReport where
  total_combinations : Nat
  covered_combinations : Nat
  missing_combinations : Nat
  coverage_percentage : ℚ
deriving DecidableEq, Repr

/-- Python `round(x, 2)` (up to the half-to-even tie rule, which no claim
exercises). -/
def roundTo2 (q : ℚ) : ℚ := (round (q * 100) : ℤ) / 100

/-- `generate_coverage_report(enriched_path, output_path)` on the two loaded
tables. -/
def generateCoverageReport (enriched catalog : List InRow) : CoverageReport :=
  let ek := dedupKeys (enriched.map nkey)
  let tk := dedupKeys (catalog.map nkey)
  let total := tk.length
  let covered := (tk.filter (fun k => k ∈ ek)).length
  { total_combinations := total
    covered_combinations := covered
    missing_combinations := total - covered
    coverage_percentage :=
      if 0 < total then roundTo2 ((covered : ℚ) / (total : ℚ) * 100) else 0 }

/-! ## Parser: `src/parser.py` -/

/-- The title-bearing sub-element (`data-marker="item-title"`) of a listing:
its tag name, its stripped text, its own `href` attribute if any, and the
first nested `<a>` descendant (`none` when there is none, `some h` when it
exists with `href` attribute `h`). -/
structure TitleElem where
  tagName : String
  text : String
  href : Option String
  nestedLinkHref : Option (Option String)
deriving DecidableEq, Repr

/-- One DOM element carrying (or not) the `data-item-id` attribute, with the
sub-elements `parse_html_file` inspects.  `dataItemId = none` models an
element without the attribute (which `find_all(attrs={"data-item-id": True})`
does not select). -/
structure HtmlItem where
  dataItemId : Option String
  titleElem : Option TitleElem
  locationText : Option String
  priceText : Option String
deriving DecidableEq, Repr

/-- The `Ad` dataclass of `parser.py`. -/
structure Ad where
  ad_id : String
  title : String
  url : String
  region : String
  price : String
deriving DecidableEq, Repr

/-- The resolved title text of an item: the stripped text of its title
element, or `""` when there is no title element. -/
def titleTextOf (item : HtmlItem) : String :=
  match item.titleElem with
  | some te => te.text
  | none => ""

/-- The loop body of `parse_html_file` for one element: `none` when the
element is skipped (no/empty identifier, or empty title), `some ad`
otherwise. -/
def adOfItem (item : HtmlItem) : Option Ad :=
  match item.dataItemId with
  | none => none
  | some adId =>
      if adId = "" then none
      else
        let title := titleTextOf item
        let url :=
          match item.titleElem with
          | some te =>
              if te.tagName = "a" then te.href.getD ""
              else
                match te.nestedLinkHref with
                | some h => h.getD ""
                | none => ""
          | none => ""
        let region := item.locationText.getD ""
        let price := item.priceText.getD ""
        if title ≠ "" then some ⟨adId, title, url, region, price⟩ else none

/-- `parse_html_file` on one document, given as the list of its DOM elements
in document order. -/
def parseHtmlDoc (items : List HtmlItem) : List Ad :=
  items.filterMap adOfItem

/-! ## Concrete data used by witnesses and counterexamples -/

/-- A well-formed listing element. -/
def goodItem : HtmlItem :=
  ⟨some "123", some ⟨"a", "Title", some "/item/1", none⟩, some "Loc", some "10"⟩

/-- A record with a title, as produced by the parser stage. -/
def adDict : Dict :=
  [("ad_id", "1"), ("title", "t1"), ("url", ""), ("region", ""), ("price", "")]

/-- A second record with a title. -/
def adDict2 : Dict :=
  [("ad_id", "2"), ("title", "t2"), ("url", ""), ("region", ""), ("price", "")]

/-- A classification object as returned by the API. -/
def classObj : Dict := [("marka", "jcb"), ("model", "JS 220"), ("group0", "g")]

/-- A catalog with two rows sharing one taxonomy key but carrying different
`marka`/`model` pairs. -/
def cat7 : List InRow :=
  [⟨some "g", some "h", some "i", some "A", some "1"⟩,
   ⟨some "g", some "h", some "i", some "B", some "2"⟩]

/-- A one-row table, used both as enriched table and as catalog. -/
def tbl8 : List InRow := [⟨some "a", some "b", some "c", some "m", some "n"⟩]

/-! # Theorems -/

/-! ## Dictionary lemmas -/

theorem alookup_append (k : String) (xs ys : Dict) :
    alookup k (xs ++ ys) =
      match alookup k xs with
      | some v => some v
      | none => alookup k ys := by
  induction xs with
  | nil => simp [alookup]
  | cons p rest ih =>
      simp only [List.cons_append, alookup, List.append_eq]
      by_cases h : p.1 = k
      · simp [h]
      · simp only [h, if_false]
        exact ih

theorem alookup_map_mergeFn (k : String) (a b : Dict) (hb : alookup k b = none) :
    alookup k (a.map (fun p =>
      match alookup p.1 b with
      | some v => (p.1, v)
      | none => p)) = alookup k a := by
  induction a with
  | nil => simp
  | cons p rest ih =>
      by_cases h : p.1 = k
      · subst h
        cases hv : alookup p.1 b with
        | none => simp [alookup, hv]
        | some v => rw [hv] at hb; exact absurd hb (by simp)
      · cases hv : alookup p.1 b with
        | none => simp [alookup, hv, h, ih]
        | some v => simp [alookup, hv, h, ih]

theorem alookup_filter_none (k : String) (b : Dict) (q : String × String → Bool)
    (hb : alookup k b = none) : alookup k (b.filter q) = none := by
  induction b with
  | nil => simp [alookup]
  | cons p rest ih =>
      have hp : p.1 ≠ k := by
        intro hpk
        rw [alookup, if_pos hpk] at hb
        exact absurd hb (by simp)
      have hrest : alookup k rest = none := by
        rwa [alookup, if_neg hp] at hb
      by_cases hq : q p
      · simp only [List.filter_cons, hq, if_true, alookup, hp, if_false]
        exact ih hrest
      · simp only [List.filter_cons, hq, if_false]
        exact ih hrest

/-- Keys absent from the API object keep the value they had in the original
record after the `{**batch[j], **enriched_item}` merge. -/
theorem alookup_dictMerge_of_absent (k : String) (a b : Dict)
    (hb : alookup k b = none) : alookup k (dictMerge a b) = alookup k a := by
  unfold dictMerge
  rw [alookup_append]
  rw [alookup_map_mergeFn k a b hb]
  cases ha : alookup k a with
  | none => simpa using alookup_filter_none k b _ hb
  | some v => rfl

/-! ## Merge-loop lemmas -/

theorem mergeEnrichedGo_ok (batch : List Dict) :
    ∀ (objs : List Dict) (j : Nat), j + objs.length ≤ batch.length →
    ∃ res, mergeEnrichedGo batch objs j = .ok res ∧
      res.length = objs.length ∧
      ∀ i, i < objs.length →
        res.getD i [] = dictMerge (batch.getD (j + i) []) (objs.getD i []) := by
  intro objs
  induction objs with
  | nil =>
      intro j _
      exact ⟨[], rfl, rfl, fun i hi => absurd hi (by simp)⟩
  | cons e rest ih =>
      intro j hj
      have hjlt : j < batch.length := by
        simp only [List.length_cons] at hj; omega
      have horig : batch.get? j = some (batch.get ⟨j, hjlt⟩) := List.get?_eq_get hjlt
      obtain ⟨res', hres', hlen', hidx'⟩ := ih (j + 1) (by
        simp only [List.length_cons] at hj; omega)
      refine ⟨dictMerge (batch.get ⟨j, hjlt⟩) e :: res', ?_, by simp [hlen'], ?_⟩
      · unfold mergeEnrichedGo
        rw [horig, hres']
        rfl
      · intro i hi
        cases i with
        | zero =>
            simp only [List.getD_cons_zero, Nat.add_zero]
            simp [List.getElem?_eq_getElem hjlt]
        | succ i' =>
            simp only [List.getD_cons_succ]
            have hi' : i' < rest.length := by
              simp only [List.length_cons] at hi; omega
            have hstep := hidx' i' hi'
            have harith : j + 1 + i' = j + (i' + 1) := by omega
            rw [harith] at hstep
            exact hstep

theorem mergeEnrichedGo_indexError (batch : List Dict) :
    ∀ (objs : List Dict) (j : Nat), objs ≠ [] → batch.length < j + objs.length →
    mergeEnrichedGo batch objs j = .error .indexError := by
  intro objs
  induction objs with
  | nil => intro j h _; exact absurd rfl h
  | cons e rest ih =>
      intro j _ hlen
      cases hget : batch.get? j with
      | none =>
          unfold mergeEnrichedGo
          rw [hget]
      | some orig =>
          have hjlt : j < batch.length := by
            have := List.get?_eq_some.mp hget
            exact this.1
          have hrest : rest ≠ [] := by
            intro hr
            subst hr
            simp only [List.length_cons, List.length_nil] at hlen
            omega
          unfold mergeEnrichedGo
          rw [hget, ih (j + 1) hrest (by simp only [List.length_cons] at hlen ⊢; omega)]
          rfl

/-! ## Batch-loop lemmas -/

@[simp] theorem recordRequest_requests (titles : List String) (st : EnrichState) :
    (recordRequest titles st).requests = st.requests ++ [titles] := rfl

@[simp] theorem addSuccess_requests (n : Nat) (st : EnrichState) :
    (addSuccess n st).requests = st.requests := rfl

@[simp] theorem addOtherErrors_requests (n : Nat) (st : EnrichState) :
    (addOtherErrors n st).requests = st.requests := rfl

@[simp] theorem addRateLimitHit_requests (st : EnrichState) :
    (addRateLimitHit st).requests = st.requests := rfl

@[simp] theorem addRetry_requests (st : EnrichState) :
    (addRetry st).requests = st.requests := rfl

@[simp] theorem addTimeoutErrors_requests (n : Nat) (st : EnrichState) :
    (addTimeoutErrors n st).requests = st.requests := rfl

@[simp] theorem addFailed_requests (n : Nat) (st : EnrichState) :
    (addFailed n st).requests = st.requests := rfl

@[simp] theorem recordRequest_failed (titles : List String) (st : EnrichState) :
    (recordRequest titles st).stats.total_failed = st.stats.total_failed := rfl

@[simp] theorem addSuccess_failed (n : Nat) (st : EnrichState) :
    (addSuccess n st).stats.total_failed = st.stats.total_failed := rfl

@[simp] theorem addOtherErrors_failed (n : Nat) (st : EnrichState) :
    (addOtherErrors n st).stats.total_failed = st.stats.total_failed := rfl

@[simp] theorem addRateLimitHit_failed (st : EnrichState) :
    (addRateLimitHit st).stats.total_failed = st.stats.total_failed := rfl

@[simp] theorem addRetry_failed (st : EnrichState) :
    (addRetry st).stats.total_failed = st.stats.total_failed := rfl

@[simp] theorem addTimeoutErrors_failed (n : Nat) (st : EnrichState) :
    (addTimeoutErrors n st).stats.total_failed = st.stats.total_failed := rfl

@[simp] theorem addFailed_failed (n : Nat) (st : EnrichState) :
    (addFailed n st).stats.total_failed = st.stats.total_failed + n := rfl

@[simp] theorem recordRequest_timeouts (titles : List String) (st : EnrichState) :
    (recordRequest titles st).stats.timeout_errors = st.stats.timeout_errors := rfl

@[simp] theorem addRetry_timeouts (st : EnrichState) :
    (addRetry st).stats.timeout_errors = st.stats.timeout_errors := rfl

@[simp] theorem addFailed_timeouts (n : Nat) (st : EnrichState) :
    (addFailed n st).stats.timeout_errors = st.stats.timeout_errors := rfl

@[simp] theorem addTimeoutErrors_timeouts (n : Nat) (st : EnrichState) :
    (addTimeoutErrors n st).stats.timeout_errors = st.stats.timeout_errors + n := rfl

@[simp] theorem recordRequest_others (titles : List String) (st : EnrichState) :
    (recordRequest titles st).stats.other_errors = st.stats.other_errors := rfl

@[simp] theorem addSuccess_others (n : Nat) (st : EnrichState) :
    (addSuccess n st).stats.other_errors = st.stats.other_errors := rfl

@[simp] theorem addOtherErrors_others (n : Nat) (st : EnrichState) :
    (addOtherErrors n st).stats.other_errors = st.stats.other_errors + n := rfl

theorem enrichBatchGo_zero (titles : List String) (resp : Nat → Response)
    (attempt : Nat) (st : EnrichState) :
    enrichBatchGo titles resp attempt 0 st = (.ok [], addFailed titles.length st) := rfl

/-- One unrolling of the retry loop, as a definitional equation. -/
theorem enrichBatchGo_succ_eq (titles : List String) (resp : Nat → Response)
    (attempt fuel : Nat) (st : EnrichState) :
    enrichBatchGo titles resp attempt (fuel + 1) st =
      (match resp attempt with
       | .http status parsed =>
           if status = 200 then
             match parsed with
             | some processed =>
                 (.ok processed, addSuccess processed.length (recordRequest titles st))
             | none => (.ok [], addOtherErrors 1 (recordRequest titles st))
           else if status = 401 then
             (.error (), addOtherErrors titles.length (recordRequest titles st))
           else if status = 429 then
             enrichBatchGo titles resp (attempt + 1) fuel
               (addRetry (addRateLimitHit (recordRequest titles st)))
           else if 500 ≤ status then
             enrichBatchGo titles resp (attempt + 1) fuel (addRetry (recordRequest titles st))
           else
             (.ok [], addOtherErrors titles.length (recordRequest titles st))
       | .timeoutExc =>
           enrichBatchGo titles resp (attempt + 1) fuel
             (if fuel = 0 then addTimeoutErrors titles.length (recordRequest titles st)
              else addRetry (addTimeoutErrors titles.length (recordRequest titles st)))
       | .otherExc =>
           (.ok [], addOtherErrors titles.length (recordRequest titles st))) := rfl

theorem enrichBatchGo_http200some (titles : List String) (resp : Nat → Response)
    (attempt fuel : Nat) (st : EnrichState) (objs : List Dict)
    (hr : resp attempt = .http 200 (some objs)) :
    enrichBatchGo titles resp attempt (fuel + 1) st =
      (.ok objs, addSuccess objs.length (recordRequest titles st)) := by
  rw [enrichBatchGo_succ_eq, hr]
  rfl

theorem enrichBatchGo_http200none (titles : List String) (resp : Nat → Response)
    (attempt fuel : Nat) (st : EnrichState)
    (hr : resp attempt = .http 200 none) :
    enrichBatchGo titles resp attempt (fuel + 1) st =
      (.ok [], addOtherErrors 1 (recordRequest titles st)) := by
  rw [enrichBatchGo_succ_eq, hr]
  rfl

theorem enrichBatchGo_httpOther (titles : List String) (resp : Nat → Response)
    (attempt fuel : Nat) (st : EnrichState) (s : Nat) (p : Option (List Dict))
    (hr : resp attempt = .http s p) (hs200 : ¬ s = 200) :
    enrichBatchGo titles resp attempt (fuel + 1) st =
      (if s = 401 then
        (.error (), addOtherErrors titles.length (recordRequest titles st))
      else if s = 429 then
        enrichBatchGo titles resp (attempt + 1) fuel
          (addRetry (addRateLimitHit (recordRequest titles st)))
      else if 500 ≤ s then
        enrichBatchGo titles resp (attempt + 1) fuel (addRetry (recordRequest titles st))
      else
        (.ok [], addOtherErrors titles.length (recordRequest titles st))) := by
  rw [enrichBatchGo_succ_eq, hr]
  cases p with
  | some processed =>
      show (if s = 200 then
          ((Except.ok processed : Except Unit (List Dict)),
            addSuccess processed.length (recordRequest titles st))
        else if s = 401 then
          (.error (), addOtherErrors titles.length (recordRequest titles st))
        else if s = 429 then
          enrichBatchGo titles resp (attempt + 1) fuel
            (addRetry (addRateLimitHit (recordRequest titles st)))
        else if 500 ≤ s then
          enrichBatchGo titles resp (attempt + 1) fuel (addRetry (recordRequest titles st))
        else
          (.ok [], addOtherErrors titles.length (recordRequest titles st))) = _
      rw [if_neg hs200]
  | none =>
      show (if s = 200 then
          ((Except.ok [] : Except Unit (List Dict)),
            addOtherErrors 1 (recordRequest titles st))
        else if s = 401 then
          (.error (), addOtherErrors titles.length (recordRequest titles st))
        else if s = 429 then
          enrichBatchGo titles resp (attempt + 1) fuel
            (addRetry (addRateLimitHit (recordRequest titles st)))
        else if 500 ≤ s then
          enrichBatchGo titles resp (attempt + 1) fuel (addRetry (recordRequest titles st))
        else
          (.ok [], addOtherErrors titles.length (recordRequest titles st))) = _
      rw [if_neg hs200]

theorem enrichBatchGo_timeoutStep (titles : List String) (resp : Nat → Response)
    (attempt fuel : Nat) (st : EnrichState) (hr : resp attempt = .timeoutExc) :
    enrichBatchGo titles resp attempt (fuel + 1) st =
      enrichBatchGo titles resp (attempt + 1) fuel
        (if fuel = 0 then addTimeoutErrors titles.length (recordRequest titles st)
         else addRetry (addTimeoutErrors titles.length (recordRequest titles st))) := by
  rw [enrichBatchGo_succ_eq, hr]

theorem enrichBatchGo_otherExc (titles : List String) (resp : Nat → Response)
    (attempt fuel : Nat) (st : EnrichState) (hr : resp attempt = .otherExc) :
    enrichBatchGo titles resp attempt (fuel + 1) st =
      (.ok [], addOtherErrors titles.length (recordRequest titles st)) := by
  rw [enrichBatchGo_succ_eq, hr]

theorem extractTitles_eq_some (batch : List Dict)
    (h : ∀ ad ∈ batch, (alookup "title" ad).isSome) :
    extractTitles batch = some (titlesOf batch) := by
  induction batch with
  | nil => rfl
  | cons a rest ih =>
      obtain ⟨t, ht⟩ := Option.isSome_iff_exists.mp (h a (by simp))
      have hrest := ih (fun ad had => h ad (by simp [had]))
      simp [extractTitles, ht, hrest, titlesOf]

/-- A 200 response with a parseable body on the first attempt tried: the
batch succeeds at once, posting exactly one request. -/
theorem enrichBatchGo_firstSuccess (titles : List String) (resp : Nat → Response)
    (attempt fuel : Nat) (st : EnrichState) (objs : List Dict)
    (h : resp attempt = .http 200 (some objs)) :
    enrichBatchGo titles resp attempt (fuel + 1) st =
      (.ok objs, addSuccess objs.length (recordRequest titles st)) :=
  enrichBatchGo_http200some titles resp attempt fuel st objs h

/-- Reaching a 401 response after `a` retryable responses: `AuthError` is
raised, exactly `a + 1` requests were posted for the batch, and no further
attempt is made. -/
theorem enrichBatchGo_auth (titles : List String) (resp : Nat → Response) :
    ∀ (a attempt fuel : Nat) (st : EnrichState), a < fuel →
    (∀ j, j < a → isRetryable (resp (attempt + j))) →
    is401 (resp (attempt + a)) →
    ∃ stats', enrichBatchGo titles resp attempt fuel st =
      (.error (), ⟨stats', st.requests ++ List.replicate (a + 1) titles⟩) := by
  intro a
  induction a with
  | zero =>
      intro attempt fuel st hfuel _ h401
      cases fuel with
      | zero => omega
      | succ f =>
          rw [Nat.add_zero] at h401
          cases hr : resp attempt with
          | http s p =>
              rw [hr] at h401
              have hs : s = 401 := h401
              subst hs
              rw [enrichBatchGo_httpOther titles resp attempt f st 401 p hr (by omega)]
              exact ⟨(addOtherErrors titles.length (recordRequest titles st)).stats, rfl⟩
          | timeoutExc => rw [hr] at h401; exact absurd h401 (by simp [is401])
          | otherExc => rw [hr] at h401; exact absurd h401 (by simp [is401])
  | succ a ih =>
      intro attempt fuel st hfuel hretry h401
      cases fuel with
      | zero => omega
      | succ f =>
          have hf : a < f := by omega
          have hretry' : ∀ j, j < a → isRetryable (resp (attempt + 1 + j)) := by
            intro j hj
            have := hretry (j + 1) (by omega)
            rwa [show attempt + (j + 1) = attempt + 1 + j by omega] at this
          have h401' : is401 (resp (attempt + 1 + a)) := by
            rwa [show attempt + (a + 1) = attempt + 1 + a by omega] at h401
          have hr0 := hretry 0 (by omega)
          rw [Nat.add_zero] at hr0
          cases hr : resp attempt with
          | http s p =>
              rw [hr] at hr0
              have hs : s = 429 ∨ 500 ≤ s := hr0
              have hs200 : ¬(s = 200) := by rcases hs with h | h <;> omega
              have hs401 : ¬(s = 401) := by rcases hs with h | h <;> omega
              rw [enrichBatchGo_httpOther titles resp attempt f st s p hr hs200]
              rw [if_neg hs401]
              rcases hs with h429 | h500
              · rw [if_pos h429]
                obtain ⟨stats', hgo⟩ := ih (attempt + 1) f _ hf hretry' h401'
                refine ⟨stats', ?_⟩
                rw [hgo]
                simp [List.replicate_succ]
              · rw [if_neg (by omega), if_pos h500]
                obtain ⟨stats', hgo⟩ := ih (attempt + 1) f _ hf hretry' h401'
                refine ⟨stats', ?_⟩
                rw [hgo]
                simp [List.replicate_succ]
          | timeoutExc =>
              rw [enrichBatchGo_timeoutStep titles resp attempt f st hr]
              obtain ⟨stats', hgo⟩ := ih (attempt + 1) f _ hf hretry' h401'
              refine ⟨stats', ?_⟩
              rw [hgo]
              by_cases hf0 : f = 0
              · omega
              · rw [if_neg hf0]
                simp [List.replicate_succ]
          | otherExc =>
              rw [hr] at hr0
              exact absurd hr0 (by simp [isRetryable])

/-- When every attempt gets a retryable response, the loop exhausts its
fuel, returns the empty list and adds the batch size to `total_failed`
(and touches no other path to `total_failed`). -/
theorem enrichBatchGo_allRetryable (titles : List String) (resp : Nat → Response) :
    ∀ (fuel attempt : Nat) (st : EnrichState),
    (∀ j, j < fuel → isRetryable (resp (attempt + j))) →
    ∃ st', enrichBatchGo titles resp attempt fuel st = (.ok [], st') ∧
      st'.stats.total_failed = st.stats.total_failed + titles.length ∧
      st'.requests = st.requests ++ List.replicate fuel titles := by
  intro fuel
  induction fuel with
  | zero =>
      intro attempt st _
      exact ⟨_, rfl, rfl, by simp⟩
  | succ f ih =>
      intro attempt st hretry
      have hretry' : ∀ j, j < f → isRetryable (resp (attempt + 1 + j)) := by
        intro j hj
        have := hretry (j + 1) (by omega)
        rwa [show attempt + (j + 1) = attempt + 1 + j by omega] at this
      have hr0 := hretry 0 (by omega)
      rw [Nat.add_zero] at hr0
      cases hr : resp attempt with
      | http s p =>
          rw [hr] at hr0
          have hs : s = 429 ∨ 500 ≤ s := hr0
          have hs200 : ¬(s = 200) := by rcases hs with h | h <;> omega
          have hs401 : ¬(s = 401) := by rcases hs with h | h <;> omega
          rw [enrichBatchGo_httpOther titles resp attempt f st s p hr hs200]
          rw [if_neg hs401]
          rcases hs with h429 | h500
          · rw [if_pos h429]
            obtain ⟨st', hgo, hfail, hreq⟩ := ih (attempt + 1) _ hretry'
            refine ⟨st', hgo, by rw [hfail]; simp, ?_⟩
            rw [hreq]
            simp [List.replicate_succ]
          · rw [if_neg (by omega), if_pos h500]
            obtain ⟨st', hgo, hfail, hreq⟩ := ih (attempt + 1) _ hretry'
            refine ⟨st', hgo, by rw [hfail]; simp, ?_⟩
            rw [hreq]
            simp [List.replicate_succ]
      | timeoutExc =>
          rw [enrichBatchGo_timeoutStep titles resp attempt f st hr]
          by_cases hf0 : f = 0
          · subst hf0
            rw [if_pos rfl]
            refine ⟨_, rfl, by simp, by simp [List.replicate_succ]⟩
          · rw [if_neg hf0]
            obtain ⟨st', hgo, hfail, hreq⟩ := ih (attempt + 1) _ hretry'
            refine ⟨st', hgo, by rw [hfail]; simp, ?_⟩
            rw [hreq]
            simp [List.replicate_succ]
      | otherExc =>
          rw [hr] at hr0
          exact absurd hr0 (by simp [isRetryable])

/-- Without a 401 response the retry loop never raises: it returns some
list, which is either empty or the parsed body of some 200 response. -/
theorem enrichBatchGo_no401 (titles : List String) (resp : Nat → Response) :
    ∀ (fuel attempt : Nat) (st : EnrichState),
    (∀ a, ¬ is401 (resp a)) →
    ∃ r st', enrichBatchGo titles resp attempt fuel st = (.ok r, st') ∧
      (r = [] ∨ ∃ a, resp a = .http 200 (some r)) := by
  intro fuel
  induction fuel with
  | zero =>
      intro attempt st _
      exact ⟨[], _, rfl, Or.inl rfl⟩
  | succ f ih =>
      intro attempt st h401
      cases hr : resp attempt with
      | http s p =>
          by_cases hs200 : s = 200
          · subst hs200
            cases p with
            | some processed =>
                exact ⟨processed, addSuccess processed.length (recordRequest titles st),
                  enrichBatchGo_http200some titles resp attempt f st processed hr,
                  Or.inr ⟨attempt, hr⟩⟩
            | none =>
                exact ⟨[], addOtherErrors 1 (recordRequest titles st),
                  enrichBatchGo_http200none titles resp attempt f st hr, Or.inl rfl⟩
          · have hs401 : ¬(s = 401) := by
              intro hs
              refine h401 attempt ?_
              rw [hr, hs]
              exact rfl
            rw [enrichBatchGo_httpOther titles resp attempt f st s p hr hs200]
            rw [if_neg hs401]
            by_cases hs429 : s = 429
            · obtain ⟨r, st', hgo, hcase⟩ := ih (attempt + 1) _ h401
              refine ⟨r, st', ?_, hcase⟩
              rw [if_pos hs429, hgo]
            · by_cases hs500 : 500 ≤ s
              · obtain ⟨r, st', hgo, hcase⟩ := ih (attempt + 1) _ h401
                refine ⟨r, st', ?_, hcase⟩
                rw [if_neg hs429, if_pos hs500, hgo]
              · refine ⟨[], addOtherErrors titles.length (recordRequest titles st),
                  ?_, Or.inl rfl⟩
                rw [if_neg hs429, if_neg hs500]
      | timeoutExc =>
          rw [enrichBatchGo_timeoutStep titles resp attempt f st hr]
          obtain ⟨r, st', hgo, hcase⟩ := ih (attempt + 1) _ h401
          exact ⟨r, st', hgo, hcase⟩
      | otherExc =>
          refine ⟨[], addOtherErrors titles.length (recordRequest titles st),
            ?_, Or.inl rfl⟩
          rw [enrichBatchGo_otherExc titles resp attempt f st hr]

/-! ## Chunk lemmas -/

theorem chunksGo_eq_of_le {α : Type _} (b : Nat) (hb : 0 < b) :
    ∀ (fuel₁ fuel₂ : Nat) (l : List α), l.length ≤ fuel₁ → l.length ≤ fuel₂ →
    chunksGo b fuel₁ l = chunksGo b fuel₂ l := by
  intro fuel₁
  induction fuel₁ with
  | zero =>
      intro fuel₂ l h1 _
      have : l = [] := List.length_eq_zero.mp (by omega)
      subst this
      cases fuel₂ <;> rfl
  | succ f ih =>
      intro fuel₂ l h1 h2
      cases l with
      | nil => cases fuel₂ <;> rfl
      | cons x xs =>
          cases fuel₂ with
          | zero => simp at h2
          | succ f₂ =>
              unfold chunksGo
              have hdrop : ((x :: xs).drop b).length ≤ f := by
                simp only [List.length_drop, List.length_cons]
                simp only [List.length_cons] at h1
                omega
              have hdrop₂ : ((x :: xs).drop b).length ≤ f₂ := by
                simp only [List.length_drop, List.length_cons]
                simp only [List.length_cons] at h2
                omega
              rw [ih f₂ _ hdrop hdrop₂]

theorem chunks_nil {α : Type _} (b : Nat) : chunks b ([] : List α) = [] := rfl

theorem chunks_cons {α : Type _} {b : Nat} (hb : 0 < b) {l : List α} (hl : l ≠ []) :
    chunks b l = l.take b :: chunks b (l.drop b) := by
  cases l with
  | nil => exact absurd rfl hl
  | cons x xs =>
      show chunksGo b (x :: xs).length (x :: xs) = _
      rw [show (x :: xs).length = xs.length + 1 from rfl]
      unfold chunksGo
      rw [chunksGo_eq_of_le b hb xs.length ((x :: xs).drop b).length _ (by
        simp only [List.length_drop, List.length_cons]; omega) (le_refl _)]
      rfl

theorem chunks_ne_nil {α : Type _} {b : Nat} (hb : 0 < b) {l : List α} (hl : l ≠ []) :
    chunks b l ≠ [] := by
  rw [chunks_cons hb hl]
  simp

theorem chunks_flatten {α : Type _} (b : Nat) (hb : 0 < b) (l : List α) :
    (chunks b l).flatten = l := by
  suffices h : ∀ (n : Nat) (l : List α), l.length = n → (chunks b l).flatten = l from
    h l.length l rfl
  intro n
  induction n using Nat.strong_induction_on with
  | _ n ih =>
      intro l hn
      cases l with
      | nil => simp [chunks_nil]
      | cons x xs =>
          rw [chunks_cons hb (by simp), List.flatten_cons]
          rw [ih ((x :: xs).drop b).length (by
            simp only [List.length_drop]
            subst hn
            simp only [List.length_cons]
            omega) _ rfl]
          exact List.take_append_drop b (x :: xs)

theorem chunks_length {α : Type _} (b : Nat) (hb : 0 < b) (l : List α) :
    (chunks b l).length = (l.length + b - 1) / b := by
  suffices h : ∀ (n : Nat) (l : List α), l.length = n →
      (chunks b l).length = (l.length + b - 1) / b from h l.length l rfl
  intro n
  induction n using Nat.strong_induction_on with
  | _ n ih =>
      intro l hn
      cases l with
      | nil =>
          simp [chunks_nil, Nat.div_eq_of_lt (by omega : b - 1 < b)]
      | cons x xs =>
          rw [chunks_cons hb (by simp)]
          simp only [List.length_cons]
          rw [ih ((x :: xs).drop b).length (by
            simp only [List.length_drop]
            subst hn
            simp only [List.length_cons]
            omega) _ rfl]
          simp only [List.length_drop, List.length_cons]
          by_cases hle : xs.length + 1 ≤ b
          · rw [show xs.length + 1 - b = 0 by omega]
            rw [Nat.div_eq_of_lt (by omega : 0 + b - 1 < b)]
            have h1 : (xs.length + 1 + b - 1) / b = 1 := by
              rw [show xs.length + 1 + b - 1 = (xs.length + 1 - 1) + b by omega]
              rw [Nat.add_div_right _ hb]
              rw [Nat.div_eq_of_lt (by omega : xs.length + 1 - 1 < b)]
            omega
          · have heq : xs.length + 1 + b - 1 = (xs.length + 1 - b + b - 1) + b := by omega
            rw [heq, Nat.add_div_right _ hb]

theorem chunks_sizes {α : Type _} (b : Nat) (hb : 0 < b) (l : List α) :
    ∀ c ∈ chunks b l, c.length ≤ b := by
  suffices h : ∀ (n : Nat) (l : List α), l.length = n →
      ∀ c ∈ chunks b l, c.length ≤ b from h l.length l rfl
  intro n
  induction n using Nat.strong_induction_on with
  | _ n ih =>
      intro l hn
      cases l with
      | nil => simp [chunks_nil]
      | cons x xs =>
          rw [chunks_cons hb (by simp)]
          intro c hc
          rcases List.mem_cons.mp hc with h | h
          · subst h
            simp only [List.length_take]
            omega
          · exact ih ((x :: xs).drop b).length (by
              simp only [List.length_drop]
              subst hn
              simp only [List.length_cons]
              omega) _ rfl c h

theorem chunks_full {α : Type _} (b : Nat) (hb : 0 < b) (l : List α) :
    ∀ i, i + 1 < (chunks b l).length → ((chunks b l).getD i []).length = b := by
  suffices h : ∀ (n : Nat) (l : List α), l.length = n →
      ∀ i, i + 1 < (chunks b l).length → ((chunks b l).getD i []).length = b from
    h l.length l rfl
  intro n
  induction n using Nat.strong_induction_on with
  | _ n ih =>
      intro l hn
      cases l with
      | nil => simp [chunks_nil]
      | cons x xs =>
          rw [chunks_cons hb (by simp)]
          intro i hi
          cases i with
          | zero =>
              simp only [List.length_cons] at hi
              have hdrop : (x :: xs).drop b ≠ [] := by
                intro hd
                rw [hd, chunks_nil] at hi
                simp at hi
              have hlen : b < (x :: xs).length := by
                by_contra hcon
                push_neg at hcon
                exact hdrop (List.drop_eq_nil_of_le hcon)
              simp only [List.getD_cons_zero, List.length_take]
              omega
          | succ i' =>
              simp only [List.getD_cons_succ]
              exact ih ((x :: xs).drop b).length (by
                simp only [List.length_drop]
                subst hn
                simp only [List.length_cons]
                omega) _ rfl i' (by simpa using hi)

theorem mem_of_mem_chunks {α : Type _} {b : Nat} (hb : 0 < b) {l : List α}
    {c : List α} (hc : c ∈ chunks b l) {x : α} (hx : x ∈ c) : x ∈ l := by
  rw [← chunks_flatten b hb l]
  exact List.mem_flatten.mpr ⟨c, hc, hx⟩

/-! ## Batch-sequencing lemmas -/

theorem enrichAllGo_cons_eq (env : Nat → Nat → Response) (batch : List Dict)
    (rest : List (List Dict)) (k : Nat) (acc : List Dict) (st : EnrichState) :
    enrichAllGo env (batch :: rest) k acc st =
      (match extractTitles batch with
       | none => (.error .keyError, st)
       | some titles =>
           match enrichBatch titles (env k) 3 st with
           | (.error _, st') => (.error .authError, st')
           | (.ok enriched, st') =>
               match mergeEnriched batch enriched with
               | .error e => (.error e, st')
               | .ok merged => enrichAllGo env rest (k + 1) (acc ++ merged) st') := rfl

/-- When every batch gets a 200 response with a body no longer than the
batch on its first attempt, the whole loop succeeds and posts exactly one
request per batch, in order. -/
theorem enrichAllGo_allSuccess (env : Nat → Nat → Response) :
    ∀ (L : List (List Dict)) (i : Nat) (acc : List Dict) (st : EnrichState),
    (∀ c ∈ L, ∀ ad ∈ c, (alookup "title" ad).isSome) →
    (∀ j, j < L.length → ∃ objs, env (i + j) 0 = .http 200 (some objs) ∧
      objs.length ≤ (L.getD j []).length) →
    ∃ res st', enrichAllGo env L i acc st = (.ok res, st') ∧
      st'.requests = st.requests ++ L.map titlesOf := by
  intro L
  induction L with
  | nil =>
      intro i acc st _ _
      exact ⟨acc, st, rfl, by simp⟩
  | cons batch rest ih =>
      intro i acc st hT hS
      obtain ⟨objs, hr, hlen⟩ := hS 0 (by simp)
      rw [Nat.add_zero] at hr
      have h1 : extractTitles batch = some (titlesOf batch) :=
        extractTitles_eq_some batch (hT batch (by simp))
      have h2 : enrichBatch (titlesOf batch) (env i) 3 st =
          (.ok objs, addSuccess objs.length (recordRequest (titlesOf batch) st)) :=
        enrichBatchGo_http200some (titlesOf batch) (env i) 0 2 st objs hr
      have hlen' : objs.length ≤ batch.length := by simpa using hlen
      obtain ⟨merged, hmerge, -, -⟩ := mergeEnrichedGo_ok batch objs 0 (by omega)
      obtain ⟨res, st', hgo, hreq⟩ := ih (i + 1) (acc ++ merged)
        (addSuccess objs.length (recordRequest (titlesOf batch) st))
        (fun c hc => hT c (by simp [hc]))
        (fun j hj => by
          obtain ⟨o, ho, hol⟩ := hS (j + 1) (by simpa using hj)
          exact ⟨o, by rwa [show i + (j + 1) = i + 1 + j by omega] at ho, by simpa using hol⟩)
      refine ⟨res, st', ?_, ?_⟩
      · rw [enrichAllGo_cons_eq]
        simp only [h1, h2, mergeEnriched] at *
        simp only [hmerge]
        exact hgo
      · rw [hreq]
        simp

/-- If the first `k` batches succeed on first attempt and batch `k` runs
into a 401 after `a` retryable responses, the loop stops with `authError`:
requests are recorded for batches `0..k-1` (one each) and for batch `k`
(`a + 1` of them), and none for any later batch. -/
theorem enrichAllGo_auth (env : Nat → Nat → Response) :
    ∀ (k : Nat) (L : List (List Dict)) (i : Nat) (acc : List Dict)
      (st : EnrichState) (a : Nat),
    k < L.length →
    (∀ c ∈ L, ∀ ad ∈ c, (alookup "title" ad).isSome) →
    (∀ j, j < k → ∃ objs, env (i + j) 0 = .http 200 (some objs) ∧
      objs.length ≤ (L.getD j []).length) →
    a < 3 → (∀ j, j < a → isRetryable (env (i + k) j)) → is401 (env (i + k) a) →
    ∃ stats', enrichAllGo env L i acc st = (.error .authError,
      ⟨stats', st.requests ++ (L.take k).map titlesOf ++
        List.replicate (a + 1) (titlesOf (L.getD k []))⟩) := by
  intro k
  induction k with
  | zero =>
      intro L i acc st a hk hT _ ha hretry h401
      cases L with
      | nil => simp at hk
      | cons batch rest =>
          have h1 : extractTitles batch = some (titlesOf batch) :=
            extractTitles_eq_some batch (hT batch (by simp))
          rw [Nat.add_zero] at hretry h401
          obtain ⟨stats', hbatch⟩ := enrichBatchGo_auth (titlesOf batch) (env i) a 0 3 st ha
            (fun j hj => by rw [Nat.zero_add]; exact hretry j hj)
            (by rw [Nat.zero_add]; exact h401)
          refine ⟨stats', ?_⟩
          rw [enrichAllGo_cons_eq]
          have h2 : enrichBatch (titlesOf batch) (env i) 3 st =
              (.error (), ⟨stats',
                st.requests ++ List.replicate (a + 1) (titlesOf batch)⟩) := hbatch
          simp only [h1, h2]
          simp
  | succ k ih =>
      intro L i acc st a hk hT hS ha hretry h401
      cases L with
      | nil => simp at hk
      | cons batch rest =>
          obtain ⟨objs, hr, hlen⟩ := hS 0 (by omega)
          rw [Nat.add_zero] at hr
          have h1 : extractTitles batch = some (titlesOf batch) :=
            extractTitles_eq_some batch (hT batch (by simp))
          have h2 : enrichBatch (titlesOf batch) (env i) 3 st =
              (.ok objs, addSuccess objs.length (recordRequest (titlesOf batch) st)) :=
            enrichBatchGo_http200some (titlesOf batch) (env i) 0 2 st objs hr
          have hlen' : objs.length ≤ batch.length := by simpa using hlen
          obtain ⟨merged, hmerge, -, -⟩ := mergeEnrichedGo_ok batch objs 0 (by omega)
          obtain ⟨stats', hgo⟩ := ih rest (i + 1) (acc ++ merged)
            (addSuccess objs.length (recordRequest (titlesOf batch) st)) a
            (by simpa using hk)
            (fun c hc => hT c (by simp [hc]))
            (fun j hj => by
              obtain ⟨o, ho, hol⟩ := hS (j + 1) (by omega)
              exact ⟨o, by rwa [show i + (j + 1) = i + 1 + j by omega] at ho,
                by simpa using hol⟩)
            ha
            (fun j hj => by
              have := hretry j hj
              rwa [show i + (k + 1) = i + 1 + k by omega] at this)
            (by
              have := h401
              rwa [show i + (k + 1) = i + 1 + k by omega] at this)
          refine ⟨stats', ?_⟩
          rw [enrichAllGo_cons_eq]
          simp only [h1, h2, mergeEnriched]
          simp only [hmerge]
          rw [hgo]
          simp [List.take_succ_cons, List.append_assoc]

/-- Without any 401 response (and with every parsed body no longer than its
batch), the loop never raises. -/
theorem enrichAllGo_no401 (env : Nat → Nat → Response) :
    ∀ (L : List (List Dict)) (i : Nat) (acc : List Dict) (st : EnrichState),
    (∀ c ∈ L, ∀ ad ∈ c, (alookup "title" ad).isSome) →
    (∀ j a, ¬ is401 (env (i + j) a)) →
    (∀ j a objs, env (i + j) a = .http 200 (some objs) →
      objs.length ≤ (L.getD j []).length) →
    ∃ res st', enrichAllGo env L i acc st = (.ok res, st') := by
  intro L
  induction L with
  | nil =>
      intro i acc st _ _ _
      exact ⟨acc, st, rfl⟩
  | cons batch rest ih =>
      intro i acc st hT h401 hS
      have h1 : extractTitles batch = some (titlesOf batch) :=
        extractTitles_eq_some batch (hT batch (by simp))
      obtain ⟨r, st1, hbatch, hcase⟩ :=
        enrichBatchGo_no401 (titlesOf batch) (env i) 3 0 st
          (fun a => by have := h401 0 a; rwa [Nat.add_zero] at this)
      have hrlen : r.length ≤ batch.length := by
        rcases hcase with hnil | ⟨a, ha⟩
        · subst hnil
          simp
        · have := hS 0 a r (by rwa [Nat.add_zero])
          simpa using this
      obtain ⟨merged, hmerge, -, -⟩ := mergeEnrichedGo_ok batch r 0 (by omega)
      obtain ⟨res, st', hgo⟩ := ih (i + 1) (acc ++ merged) st1
        (fun c hc => hT c (by simp [hc]))
        (fun j a => by
          have := h401 (j + 1) a
          rwa [show i + (j + 1) = i + 1 + j by omega] at this)
        (fun j a objs ho => by
          have := hS (j + 1) a objs (by
            rwa [show i + (j + 1) = i + 1 + j by omega])
          simpa using this)
      refine ⟨res, st', ?_⟩
      rw [enrichAllGo_cons_eq]
      have h2 : enrichBatch (titlesOf batch) (env i) 3 st = (.ok r, st1) := hbatch
      simp only [h1, h2, mergeEnriched]
      simp only [hmerge]
      exact hgo

/-! ## Parser theorems -/

/-- C9: every record the Extractor returns carries a non-empty identifier
and a non-empty title; an element lacking the identifier attribute, having
it empty, or whose resolved title text is empty, yields no record. -/
theorem claim_C9 :
    (∀ (items : List HtmlItem) (ad : Ad), ad ∈ parseHtmlDoc items →
      ad.ad_id ≠ "" ∧ ad.title ≠ "") ∧
    (∀ (item : HtmlItem) (rest : List HtmlItem),
      item.dataItemId = none ∨ item.dataItemId = some "" ∨ titleTextOf item = "" →
      parseHtmlDoc (item :: rest) = parseHtmlDoc rest) := by
  constructor
  · intro items ad had
    simp only [parseHtmlDoc, List.mem_filterMap] at had
    obtain ⟨it, -, hit⟩ := had
    cases hid : it.dataItemId with
    | none =>
        simp only [adOfItem, hid] at hit
        exact Option.noConfusion hit
    | some adId =>
        simp only [adOfItem, hid] at hit
        by_cases h1 : adId = ""
        · simp only [h1, if_true] at hit
          exact Option.noConfusion hit
        · simp only [h1, if_false] at hit
          by_cases h2 : titleTextOf it = ""
          · simp only [h2, ne_eq, not_true_eq_false, if_false] at hit
            exact Option.noConfusion hit
          · simp only [ne_eq, h2, not_false_eq_true, if_true, Option.some.injEq] at hit
            cases hit
            exact ⟨h1, h2⟩
  · intro item rest hskip
    have hnone : adOfItem item = none := by
      rcases hskip with h | h | h
      · simp only [adOfItem, h]
      · simp only [adOfItem, h, if_true]
      · cases hid : item.dataItemId with
        | none => simp only [adOfItem, hid]
        | some adId =>
            simp only [adOfItem, hid, h]
            by_cases h1 : adId = ""
            · simp [h1]
            · simp [h1]
    simp [parseHtmlDoc, List.filterMap_cons, hnone]

/-- Witness for C9: a well-formed element yields a record with non-empty id
and title; an element without the identifier attribute yields nothing. -/
theorem claim_C9_witness :
    ((⟨"123", "Title", "/item/1", "Loc", "10"⟩ : Ad).ad_id ≠ "" ∧
      (⟨"123", "Title", "/item/1", "Loc", "10"⟩ : Ad).title ≠ "") ∧
    parseHtmlDoc [⟨none, none, none, none⟩] = [] :=
  ⟨claim_C9.1 [goodItem] _ (by decide),
   (claim_C9.2 ⟨none, none, none, none⟩ [] (Or.inl rfl)).trans rfl⟩

/-! ## Enricher claim theorems -/

/-- C1: a 401 response - reached after any run of retryable responses -
makes the enrichment raise the authentication failure, a `PyError` kind
distinct from all others, with no retry of that batch (exactly `a + 1`
requests posted for it) and no request for any later batch; and in the
absence of 401 responses `enrich_all_ads` never raises, whatever mix of
rate limits, timeouts, server errors, malformed bodies or unexpected
statuses the batches run into. -/
theorem claim_C1 :
    (∀ (titles : List String) (resp : Nat → Response) (retry : Nat)
       (st : EnrichState) (a : Nat),
      a < retry → (∀ j, j < a → isRetryable (resp j)) → is401 (resp a) →
      ∃ stats', enrichBatch titles resp retry st =
        (.error (), ⟨stats', st.requests ++ List.replicate (a + 1) titles⟩)) ∧
    (∀ (ads : List Dict) (b : Nat) (env : Nat → Nat → Response) (k a : Nat),
      0 < b → k < (chunks b ads).length →
      (∀ ad ∈ ads, (alookup "title" ad).isSome) →
      (∀ j, j < k → ∃ objs, env j 0 = .http 200 (some objs) ∧
        objs.length ≤ ((chunks b ads).getD j []).length) →
      a < 3 → (∀ j, j < a → isRetryable (env k j)) → is401 (env k a) →
      ∃ stats', enrichAllAds ads b env = (.error .authError,
        ⟨stats', ((chunks b ads).take k).map titlesOf ++
          List.replicate (a + 1) (titlesOf ((chunks b ads).getD k []))⟩)) ∧
    (∀ (ads : List Dict) (b : Nat) (env : Nat → Nat → Response),
      0 < b →
      (∀ ad ∈ ads, (alookup "title" ad).isSome) →
      (∀ k a, ¬ is401 (env k a)) →
      (∀ k a objs, env k a = .http 200 (some objs) →
        objs.length ≤ ((chunks b ads).getD k []).length) →
      ∃ res st', enrichAllAds ads b env = (.ok res, st')) := by
  refine ⟨?_, ?_, ?_⟩
  · intro titles resp retry st a ha hretry h401
    exact enrichBatchGo_auth titles resp a 0 retry st ha
      (fun j hj => by rw [Nat.zero_add]; exact hretry j hj)
      (by rw [Nat.zero_add]; exact h401)
  · intro ads b env k a hb hk hT hS ha hretry h401
    obtain ⟨stats', hgo⟩ := enrichAllGo_auth env k (chunks b ads) 0 [] initState a hk
      (fun c hc ad had => hT ad (mem_of_mem_chunks hb hc had))
      (fun j hj => by rw [Nat.zero_add]; exact hS j hj)
      ha
      (fun j hj => by rw [Nat.zero_add]; exact hretry j hj)
      (by rw [Nat.zero_add]; exact h401)
    refine ⟨stats', ?_⟩
    show enrichAllGo env (chunks b ads) 0 [] initState = _
    rw [hgo]
    simp [initState]
  · intro ads b env hb hT h401 hS
    obtain ⟨res, st', hgo⟩ := enrichAllGo_no401 env (chunks b ads) 0 [] initState
      (fun c hc ad had => hT ad (mem_of_mem_chunks hb hc had))
      (fun j a => by rw [Nat.zero_add]; exact h401 j a)
      (fun j a objs h => by rw [Nat.zero_add] at h; exact hS j a objs h)
    exact ⟨res, st', hgo⟩

/-- Witness for C1 at concrete runs: an immediate 401 aborts `enrich_batch`
and `enrich_all_ads` after one request; a 200-only environment never
raises. -/
theorem claim_C1_witness :
    (∃ stats', enrichBatch ["x"] (fun _ => Response.http 401 none) 3 initState =
      (.error (), ⟨stats', initState.requests ++ List.replicate (0 + 1) ["x"]⟩)) ∧
    (∃ stats', enrichAllAds [adDict] 1 (fun _ _ => Response.http 401 none) =
      (.error .authError, ⟨stats',
        ((chunks 1 [adDict]).take 0).map titlesOf ++
          List.replicate (0 + 1) (titlesOf ((chunks 1 [adDict]).getD 0 []))⟩)) ∧
    (∃ res st', enrichAllAds [adDict] 1 (fun _ _ => Response.http 200 (some [])) =
      (.ok res, st')) := by
  refine ⟨?_, ?_, ?_⟩
  · exact claim_C1.1 ["x"] (fun _ => Response.http 401 none) 3 initState 0 (by omega)
      (fun j hj => absurd hj (by omega)) rfl
  · exact claim_C1.2.1 [adDict] 1 (fun _ _ => Response.http 401 none) 0 0 (by omega)
      (by decide) (by decide) (fun j hj => absurd hj (by omega)) (by omega)
      (fun j hj => absurd hj (by omega)) rfl
  · exact claim_C1.2.2 [adDict] 1 (fun _ _ => Response.http 200 (some [])) (by omega)
      (by decide)
      (fun k a h => by simp [is401] at h)
      (fun k a objs h => by
        injection h with h1 h2
        injection h2 with h3
        rw [← h3]
        exact Nat.zero_le _)

/-- C2: when every attempt up to the retry ceiling gets a retryable
response (429, status at least 500, or a timeout), the batch returns the
empty list and `total_failed` grows by exactly the batch size. -/
theorem claim_C2 (titles : List String) (resp : Nat → Response) (retry : Nat)
    (st : EnrichState) (h : ∀ a, a < retry → isRetryable (resp a)) :
    ∃ st', enrichBatch titles resp retry st = (.ok [], st') ∧
      st'.stats.total_failed = st.stats.total_failed + titles.length := by
  obtain ⟨st', hgo, hfail, -⟩ := enrichBatchGo_allRetryable titles resp retry 0 st
    (fun j hj => by rw [Nat.zero_add]; exact h j hj)
  exact ⟨st', hgo, hfail⟩

/-- Witness for C2: three straight 500 responses fail a 2-title batch. -/
theorem claim_C2_witness :
    ∃ st', enrichBatch ["a", "b"] (fun _ => Response.http 500 none) 3 initState =
      (.ok [], st') ∧
      st'.stats.total_failed =
        initState.stats.total_failed + (["a", "b"] : List String).length :=
  claim_C2 ["a", "b"] (fun _ => Response.http 500 none) 3 initState
    (fun a _ => Or.inr (by omega))

/-- In a run where every attempt times out, each of the `fuel` timeout
occurrences adds the batch size to `timeout_errors`. -/
theorem enrichBatchGo_allTimeout (titles : List String) (resp : Nat → Response)
    (h : ∀ a, resp a = .timeoutExc) :
    ∀ (fuel attempt : Nat) (st : EnrichState),
    ((enrichBatchGo titles resp attempt fuel st).2).stats.timeout_errors =
      st.stats.timeout_errors + fuel * titles.length := by
  intro fuel
  induction fuel with
  | zero =>
      intro attempt st
      simp [enrichBatchGo_zero]
  | succ f ih =>
      intro attempt st
      rw [enrichBatchGo_timeoutStep titles resp attempt f st (h attempt)]
      by_cases hf : f = 0
      · subst hf
        rw [if_pos rfl, ih]
        simp [Nat.succ_mul]
      · rw [if_neg hf, ih]
        simp [Nat.succ_mul]
        omega

/-- Counterexample to C5: a single timeout occurrence on a batch of two
titles (one allowed attempt, so exactly one request and one timeout) moves
`timeout_errors` from 0 to 2, not to 1: the counter grows by the batch
size, not by one per occurrence. -/
theorem claim_C5_counterexample :
    (enrichBatch ["a", "b"] (fun _ => Response.timeoutExc) 1 initState).2.stats.timeout_errors
      = 2 ∧
    ¬ ((enrichBatch ["a", "b"] (fun _ => Response.timeoutExc) 1
        initState).2.stats.timeout_errors =
      initState.stats.timeout_errors + 1) := by
  constructor
  · rfl
  · decide

/-- C5 amended: each request-timeout occurrence adds the batch size
(`len(titles)`) to the timeout statistic - `retry` timeouts add
`retry * len(titles)`; the other-error statistic grows by one on a 200
response with unparseable body, but by the batch size on an unexpected
status. -/
theorem claim_C5_amended :
    (∀ (titles : List String) (resp : Nat → Response) (retry : Nat) (st : EnrichState),
      (∀ a, resp a = .timeoutExc) →
      ((enrichBatch titles resp retry st).2).stats.timeout_errors =
        st.stats.timeout_errors + retry * titles.length) ∧
    (∀ (titles : List String) (resp : Nat → Response) (retry : Nat) (st : EnrichState),
      resp 0 = .http 200 none → 0 < retry →
      ((enrichBatch titles resp retry st).2).stats.other_errors =
        st.stats.other_errors + 1) ∧
    (∀ (titles : List String) (resp : Nat → Response) (retry : Nat) (st : EnrichState)
       (s : Nat) (p : Option (List Dict)),
      resp 0 = .http s p → 0 < retry →
      ¬ s = 200 → ¬ s = 401 → ¬ s = 429 → s < 500 →
      ((enrichBatch titles resp retry st).2).stats.other_errors =
        st.stats.other_errors + titles.length) := by
  refine ⟨?_, ?_, ?_⟩
  · intro titles resp retry st h
    exact enrichBatchGo_allTimeout titles resp h retry 0 st
  · intro titles resp retry st hr hpos
    cases retry with
    | zero => omega
    | succ r =>
        show ((enrichBatchGo titles resp 0 (r + 1) st).2).stats.other_errors = _
        rw [enrichBatchGo_http200none titles resp 0 r st hr]
        simp
  · intro titles resp retry st s p hr hpos hs200 hs401 hs429 hs500
    cases retry with
    | zero => omega
    | succ r =>
        show ((enrichBatchGo titles resp 0 (r + 1) st).2).stats.other_errors = _
        rw [enrichBatchGo_httpOther titles resp 0 r st s p hr hs200]
        rw [if_neg hs401, if_neg hs429, if_neg (by omega : ¬ 500 ≤ s)]
        simp

/-- Witness for the amended C5 at concrete runs: two all-timeout attempts
on a 2-title batch add 4; an unparseable 200 body adds 1; a 418 status on a
2-title batch adds 2. -/
theorem claim_C5_amended_witness :
    ((enrichBatch ["a", "b"] (fun _ => Response.timeoutExc) 2 initState).2).stats.timeout_errors
      = initState.stats.timeout_errors + 2 * (["a", "b"] : List String).length ∧
    ((enrichBatch ["a", "b"] (fun _ => Response.http 200 none) 3
      initState).2).stats.other_errors = initState.stats.other_errors + 1 ∧
    ((enrichBatch ["a", "b"] (fun _ => Response.http 418 none) 3
      initState).2).stats.other_errors =
      initState.stats.other_errors + (["a", "b"] : List String).length :=
  ⟨claim_C5_amended.1 ["a", "b"] (fun _ => Response.timeoutExc) 2 initState (fun _ => rfl),
   claim_C5_amended.2.1 ["a", "b"] (fun _ => Response.http 200 none) 3 initState rfl
     (by omega),
   claim_C5_amended.2.2 ["a", "b"] (fun _ => Response.http 418 none) 3 initState 418 none
     rfl (by omega) (by omega) (by omega) (by omega) (by omega)⟩

/-- C3: when the service returns `k` objects for `n` submitted records with
`k ≤ n`, the i-th object is merged onto the i-th record of the batch, the
trailing `n - k` records produce no output, and a field whose key is absent
from the classification object keeps its original value. -/
theorem claim_C3 (batch objs : List Dict) (hk : objs.length ≤ batch.length) :
    ∃ res, mergeEnriched batch objs = .ok res ∧
      res.length = objs.length ∧
      ∀ i, i < objs.length →
        res.getD i [] = dictMerge (batch.getD i []) (objs.getD i []) ∧
        ∀ key, alookup key (objs.getD i []) = none →
          alookup key (res.getD i []) = alookup key (batch.getD i []) := by
  obtain ⟨res, hres, hlen, hidx⟩ := mergeEnrichedGo_ok batch objs 0 (by omega)
  refine ⟨res, hres, hlen, fun i hi => ?_⟩
  have h := hidx i hi
  rw [Nat.zero_add] at h
  refine ⟨h, fun key hkey => ?_⟩
  rw [h]
  exact alookup_dictMerge_of_absent key _ _ hkey

/-- Witness for C3: one classification object onto a two-record batch. -/
theorem claim_C3_witness :
    ∃ res, mergeEnriched [adDict, adDict2] [classObj] = .ok res ∧
      res.length = ([classObj] : List Dict).length ∧
      ∀ i, i < ([classObj] : List Dict).length →
        res.getD i [] = dictMerge ([adDict, adDict2].getD i []) ([classObj].getD i []) ∧
        ∀ key, alookup key (([classObj] : List Dict).getD i []) = none →
          alookup key (res.getD i []) =
            alookup key (([adDict, adDict2] : List Dict).getD i []) :=
  claim_C3 [adDict, adDict2] [classObj] (by decide)

/-- C10: when the service returns strictly more classification objects than
titles submitted for a batch, the positional merge runs off the end of the
batch list: it raises `IndexError` instead of ignoring the surplus. -/
theorem claim_C10 :
    (∀ (batch objs : List Dict), batch.length < objs.length →
      mergeEnriched batch objs = .error .indexError) ∧
    (∀ (ads : List Dict) (b : Nat) (env : Nat → Nat → Response) (objs : List Dict),
      0 < ads.length → ads.length ≤ b →
      (∀ ad ∈ ads, (alookup "title" ad).isSome) →
      env 0 0 = .http 200 (some objs) → ads.length < objs.length →
      (enrichAllAds ads b env).1 = .error .indexError) := by
  constructor
  · intro batch objs hlen
    apply mergeEnrichedGo_indexError
    · intro h
      subst h
      simp at hlen
    · omega
  · intro ads b env objs hpos hle hT hr hlen
    have hb : 0 < b := by omega
    have hchunks : chunks b ads = [ads] := by
      rw [chunks_cons hb (by intro h; subst h; simp at hpos)]
      rw [List.take_of_length_le hle, List.drop_eq_nil_of_le hle, chunks_nil]
    show (enrichAllGo env (chunks b ads) 0 [] initState).1 = _
    rw [hchunks, enrichAllGo_cons_eq]
    have h1 : extractTitles ads = some (titlesOf ads) := extractTitles_eq_some ads hT
    have h2 : enrichBatch (titlesOf ads) (env 0) 3 initState =
        (.ok objs, addSuccess objs.length (recordRequest (titlesOf ads) initState)) :=
      enrichBatchGo_http200some (titlesOf ads) (env 0) 0 2 initState objs hr
    simp only [h1, h2, mergeEnriched]
    rw [mergeEnrichedGo_indexError ads objs 0
      (by intro h; subst h; simp at hlen) (by omega)]

/-- Witness for C10: two objects for a one-record batch. -/
theorem claim_C10_witness :
    mergeEnriched [] [classObj] = .error .indexError ∧
    (enrichAllAds [adDict] 1
      (fun _ _ => Response.http 200 (some [classObj, classObj]))).1 =
      .error .indexError :=
  ⟨claim_C10.1 [] [classObj] (by decide),
   claim_C10.2 [adDict] 1 (fun _ _ => Response.http 200 (some [classObj, classObj]))
     [classObj, classObj] (by decide) (by decide) (by decide) rfl (by decide)⟩

/-- C4: with every batch succeeding on its first attempt, `enrich_all_ads`
posts exactly `ceil(n / b)` requests, one per chunk, each carrying at most
`b` titles, over chunks that partition the input in order, with every chunk
except possibly the last of size exactly `b`. -/
theorem claim_C4 (ads : List Dict) (b : Nat) (env : Nat → Nat → Response)
    (hn : 0 < ads.length) (hb : 0 < b) (hlt : b < ads.length)
    (hT : ∀ ad ∈ ads, (alookup "title" ad).isSome)
    (hS : ∀ k, k < (chunks b ads).length → ∃ objs, env k 0 = .http 200 (some objs) ∧
      objs.length ≤ ((chunks b ads).getD k []).length) :
    ∃ res st, enrichAllAds ads b env = (.ok res, st) ∧
      st.requests = (chunks b ads).map titlesOf ∧
      st.requests.length = (ads.length + b - 1) / b ∧
      (∀ r ∈ st.requests, r.length ≤ b) ∧
      (chunks b ads).flatten = ads ∧
      (∀ i, i + 1 < (chunks b ads).length → ((chunks b ads).getD i []).length = b) := by
  obtain ⟨res, st, hgo, hreq⟩ := enrichAllGo_allSuccess env (chunks b ads) 0 [] initState
    (fun c hc ad had => hT ad (mem_of_mem_chunks hb hc had))
    (fun j hj => by rw [Nat.zero_add]; exact hS j hj)
  have hreq' : st.requests = (chunks b ads).map titlesOf := by
    rw [hreq]
    simp [initState]
  refine ⟨res, st, hgo, hreq', ?_, ?_, chunks_flatten b hb ads, chunks_full b hb ads⟩
  · rw [hreq']
    simp [chunks_length b hb ads]
  · intro r hr
    rw [hreq'] at hr
    obtain ⟨c, hc, hrc⟩ := List.mem_map.mp hr
    have : r.length = c.length := by
      rw [← hrc]
      simp [titlesOf]
    rw [this]
    exact chunks_sizes b hb ads c hc

/-- Witness for C4: two one-record batches with batch size 1. -/
theorem claim_C4_witness :
    ∃ res st, enrichAllAds [adDict, adDict2] 1
        (fun _ _ => Response.http 200 (some [])) = (.ok res, st) ∧
      st.requests = (chunks 1 [adDict, adDict2]).map titlesOf ∧
      st.requests.length = (([adDict, adDict2] : List Dict).length + 1 - 1) / 1 ∧
      (∀ r ∈ st.requests, r.length ≤ 1) ∧
      (chunks 1 [adDict, adDict2]).flatten = [adDict, adDict2] ∧
      (∀ i, i + 1 < (chunks 1 [adDict, adDict2]).length →
        ((chunks 1 [adDict, adDict2]).getD i []).length = 1) :=
  claim_C4 [adDict, adDict2] 1 (fun _ _ => Response.http 200 (some []))
    (by decide) (by decide) (by decide) (by decide)
    (fun k _ => ⟨[], rfl, by simp⟩)

/-! ## Analyzer lemmas -/

theorem mem_dedupKeys {α : Type _} [DecidableEq α] {l : List α} {x : α} :
    x ∈ dedupKeys l ↔ x ∈ l := by
  induction l with
  | nil => simp [dedupKeys]
  | cons a rest ih =>
      simp only [dedupKeys, List.mem_cons, List.mem_filter, decide_eq_true_eq]
      constructor
      · rintro (rfl | ⟨hx, -⟩)
        · exact Or.inl rfl
        · exact Or.inr (ih.mp hx)
      · rintro (rfl | hx)
        · exact Or.inl rfl
        · by_cases hxa : x = a
          · exact Or.inl hxa
          · exact Or.inr ⟨ih.mpr hx, by simp [hxa]⟩

theorem nodup_dedupKeys {α : Type _} [DecidableEq α] (l : List α) :
    (dedupKeys l).Nodup := by
  induction l with
  | nil => simp [dedupKeys]
  | cons a rest ih =>
      simp only [dedupKeys, List.nodup_cons]
      refine ⟨?_, ih.filter _⟩
      intro hmem
      have := (List.mem_filter.mp hmem).2
      simp at this

theorem dedupKeys_length {α : Type _} [DecidableEq α] (l : List α) :
    (dedupKeys l).length = l.toFinset.card := by
  have h1 : (dedupKeys l).toFinset = l.toFinset := by
    ext x
    simp [List.mem_toFinset, mem_dedupKeys]
  rw [← h1, List.toFinset_card_of_nodup (nodup_dedupKeys l)]

theorem dedupKeys_filter_length {α : Type _} [DecidableEq α] (l : List α) (p : α → Bool) :
    ((dedupKeys l).filter p).length =
      (l.toFinset.filter (fun x => p x = true)).card := by
  have hnd : ((dedupKeys l).filter p).Nodup := (nodup_dedupKeys l).filter p
  have h1 : ((dedupKeys l).filter p).toFinset =
      l.toFinset.filter (fun x => p x = true) := by
    ext x
    simp [List.mem_toFinset, List.mem_filter, mem_dedupKeys, Finset.mem_filter]
  rw [← h1, List.toFinset_card_of_nodup hnd]

theorem length_filter_add_compl {α : Type _} (l : List α) (p q : α → Bool)
    (h : ∀ x, p x = !(q x)) :
    (l.filter q).length + (l.filter p).length = l.length := by
  induction l with
  | nil => rfl
  | cons a rest ih =>
      cases hqa : q a with
      | true =>
          rw [List.filter_cons, List.filter_cons, if_pos hqa,
            if_neg (by rw [h a, hqa]; simp)]
          simp only [List.length_cons]
          omega
      | false =>
          rw [List.filter_cons, List.filter_cons, if_neg (by rw [hqa]; simp),
            if_pos (by rw [h a, hqa]; simp)]
          simp only [List.length_cons]
          omega

theorem mem_insertByFreq (f : MissingRow → Nat) (x y : MissingRow)
    (l : List MissingRow) : y ∈ insertByFreq f x l ↔ y = x ∨ y ∈ l := by
  induction l with
  | nil => simp [insertByFreq]
  | cons z zs ih =>
      simp only [insertByFreq]
      by_cases h : f z < f x
      · simp [h]
      · simp only [h, if_false, List.mem_cons, ih]
        tauto

theorem mem_sortByFreq (f : MissingRow → Nat) (l : List MissingRow)
    (y : MissingRow) : y ∈ sortByFreq f l ↔ y ∈ l := by
  induction l with
  | nil => simp [sortByFreq]
  | cons x xs ih =>
      simp only [sortByFreq, mem_insertByFreq, List.mem_cons, ih]

/-! ## Analyzer claim theorems -/

/-- C6: `generate_coverage_report` counts distinct taxonomy keys (duplicate
rows collapse before counting, on both sides), reports the count of catalog
keys present among the enriched keys, the difference, and a coverage
percentage of 0 for an empty catalog key set, with the division guarded. -/
theorem claim_C6 (enriched catalog : List InRow) :
    (generateCoverageReport enriched catalog).total_combinations =
      ((catalog.map nkey).toFinset).card ∧
    (generateCoverageReport enriched catalog).covered_combinations =
      ((catalog.map nkey).toFinset.filter
        (fun k => k ∈ (enriched.map nkey).toFinset)).card ∧
    (generateCoverageReport enriched catalog).missing_combinations =
      (generateCoverageReport enriched catalog).total_combinations -
        (generateCoverageReport enriched catalog).covered_combinations ∧
    ((catalog.map nkey).toFinset = ∅ →
      (generateCoverageReport enriched catalog).coverage_percentage = 0) := by
  refine ⟨?_, ?_, rfl, ?_⟩
  · simp only [generateCoverageReport]
    exact dedupKeys_length _
  · simp only [generateCoverageReport]
    rw [dedupKeys_filter_length]
    congr 1
    apply Finset.filter_congr
    intro x _
    simp [mem_dedupKeys, List.mem_toFinset]
  · intro hempty
    have htot0 : (dedupKeys (catalog.map nkey)).length = 0 := by
      rw [dedupKeys_length, hempty]
      rfl
    simp only [generateCoverageReport]
    rw [if_neg (by omega)]

/-- Witness for C6: the guarded branch fires on an empty catalog and the
counts are those of the distinct key sets. -/
theorem claim_C6_witness :
    (generateCoverageReport tbl8 []).coverage_percentage = 0 ∧
    (generateCoverageReport tbl8 tbl8).total_combinations =
      ((tbl8.map nkey).toFinset).card :=
  ⟨(claim_C6 tbl8 []).2.2.2 (by simp), (claim_C6 tbl8 tbl8).1⟩

/-- Counterexample to C7: a catalog whose single (missing) taxonomy key has
two distinct `marka`/`model` pairs makes `find_missing_coverage` return two
rows for that one key, so the row count plus the covered count (0) is 2
while the report's total is 1. -/
theorem claim_C7_counterexample :
    (findMissingCoverage [] cat7).rows.length +
        (generateCoverageReport [] cat7).covered_combinations ≠
      (generateCoverageReport [] cat7).total_combinations := by
  decide

/-- C7 amended: the number of DISTINCT taxonomy keys among the rows of
`find_missing_coverage` (rather than the raw row count, which repeats a key
once per distinct `marka`/`model` pair) plus the covered-combinations count
equals the total-combinations count of `generate_coverage_report` on the
same pair of tables. -/
theorem claim_C7_amended (enriched catalog : List InRow) :
    ((findMissingCoverage enriched catalog).rows.map rowKey).toFinset.card +
        (generateCoverageReport enriched catalog).covered_combinations =
      (generateCoverageReport enriched catalog).total_combinations := by
  by_cases hmiss : ((dedupKeys (catalog.map nkey)).filter
      (fun k => k ∉ dedupKeys (enriched.map nkey))).isEmpty
  · have hrows : (findMissingCoverage enriched catalog).rows = [] := by
      simp only [findMissingCoverage]
      rw [if_pos hmiss]
    have hall : ∀ k ∈ dedupKeys (catalog.map nkey),
        k ∈ dedupKeys (enriched.map nkey) := by
      intro k hk
      by_contra hcon
      have : k ∈ (dedupKeys (catalog.map nkey)).filter
          (fun k => k ∉ dedupKeys (enriched.map nkey)) :=
        List.mem_filter.mpr ⟨hk, by simpa using hcon⟩
      rw [List.isEmpty_iff] at hmiss
      rw [hmiss] at this
      simp at this
    have hcov : (generateCoverageReport enriched catalog).covered_combinations =
        (generateCoverageReport enriched catalog).total_combinations := by
      simp only [generateCoverageReport]
      congr 1
      apply List.filter_eq_self.mpr
      intro k hk
      simpa using hall k hk
    rw [hrows, hcov]
    simp
  · have hrows : (findMissingCoverage enriched catalog).rows =
        sortByFreq (fun r => keyFreq catalog (rowKey r))
          ((dedupKeys (((dedupKeys (catalog.map nkey)).filter
              (fun k => k ∉ dedupKeys (enriched.map nkey))).flatMap (fun k =>
            (catalog.filter (fun r => nkey r = k)).map
              (fun r => (k, r.marka, r.model))))).map (fun p =>
            MissingRow.mk p.1.1 p.1.2.1 p.1.2.2 p.2.1 p.2.2 "отсутствует")) := by
      simp only [findMissingCoverage]
      rw [if_neg hmiss]
    have hkeys : ((findMissingCoverage enriched catalog).rows.map rowKey).toFinset =
        ((dedupKeys (catalog.map nkey)).filter
          (fun k => k ∉ dedupKeys (enriched.map nkey))).toFinset := by
      ext k0
      rw [hrows]
      simp only [List.mem_toFinset, List.mem_map]
      constructor
      · rintro ⟨row, hrow, hk0⟩
        rw [mem_sortByFreq] at hrow
        obtain ⟨p, hp, hprow⟩ := List.mem_map.mp hrow
        have hpinfo : p ∈ ((dedupKeys (catalog.map nkey)).filter
            (fun k => k ∉ dedupKeys (enriched.map nkey))).flatMap (fun k =>
              (catalog.filter (fun r => nkey r = k)).map
                (fun r => (k, r.marka, r.model))) := mem_dedupKeys.mp hp
        obtain ⟨k1, hk1, hpk1⟩ := List.mem_flatMap.mp hpinfo
        obtain ⟨r, -, hrp⟩ := List.mem_map.mp hpk1
        have hp1 : p.1 = k1 := by rw [← hrp]
        have hkey : rowKey row = p.1 := by
          rw [← hprow]
          rfl
        rw [← hk0, hkey, hp1]
        exact hk1
      · intro hk0
        have hk0tk : k0 ∈ dedupKeys (catalog.map nkey) :=
          (List.mem_filter.mp hk0).1
        have : k0 ∈ catalog.map nkey := mem_dedupKeys.mp hk0tk
        obtain ⟨r, hr, hrk⟩ := List.mem_map.mp this
        refine ⟨MissingRow.mk k0.1 k0.2.1 k0.2.2 r.marka r.model "отсутствует",
          ?_, rfl⟩
        rw [mem_sortByFreq]
        refine List.mem_map.mpr ⟨(k0, r.marka, r.model), ?_, rfl⟩
        apply mem_dedupKeys.mpr
        apply List.mem_flatMap.mpr
        refine ⟨k0, hk0, ?_⟩
        apply List.mem_map.mpr
        refine ⟨r, ?_, rfl⟩
        apply List.mem_filter.mpr
        exact ⟨hr, by simp [hrk]⟩
    have hmissnd : ((dedupKeys (catalog.map nkey)).filter
        (fun k => k ∉ dedupKeys (enriched.map nkey))).Nodup :=
      (nodup_dedupKeys _).filter _
    rw [hkeys, List.toFinset_card_of_nodup hmissnd]
    show ((dedupKeys (catalog.map nkey)).filter
        (fun k => k ∉ dedupKeys (enriched.map nkey))).length +
      ((dedupKeys (catalog.map nkey)).filter
        (fun k => k ∈ dedupKeys (enriched.map nkey))).length =
      (dedupKeys (catalog.map nkey)).length
    rw [Nat.add_comm]
    exact length_filter_add_compl (dedupKeys (catalog.map nkey)) _ _
      (fun x => decide_not)

/-- Witness for C7 amended at the counterexample tables: one distinct
missing key plus zero covered equals total 1. -/
theorem claim_C7_amended_witness :
    ((findMissingCoverage [] cat7).rows.map rowKey).toFinset.card +
        (generateCoverageReport [] cat7).covered_combinations =
      (generateCoverageReport [] cat7).total_combinations :=
  claim_C7_amended [] cat7

/-- Counterexample to C8: on two identical (fully covered) tables the empty
result of `find_missing_coverage` carries only the four columns
`group0, group1, group2, reason` - `marka` and `model` are missing - and
the `to_csv` persist step is skipped (the function returns before it). -/
theorem claim_C8_counterexample :
    (findMissingCoverage tbl8 tbl8).columns =
      ["group0", "group1", "group2", "reason"] ∧
    (findMissingCoverage tbl8 tbl8).saved = false ∧
    ¬ ((findMissingCoverage tbl8 tbl8).columns =
        ["group0", "group1", "group2", "marka", "model", "reason"]) :=
  ⟨rfl, rfl, by decide⟩

/-- C8 amended: when every catalog taxonomy key is present among the
enriched keys, `find_missing_coverage` returns an empty result whose column
set is `group0, group1, group2, reason` (without `marka`/`model`), and does
NOT persist it - the save side effect happens only on the non-empty path. -/
theorem claim_C8_amended (enriched catalog : List InRow)
    (h : ∀ k ∈ catalog.map nkey, k ∈ enriched.map nkey) :
    findMissingCoverage enriched catalog =
      ⟨["group0", "group1", "group2", "reason"], [], false⟩ := by
  have hmiss : ((dedupKeys (catalog.map nkey)).filter
      (fun k => k ∉ dedupKeys (enriched.map nkey))) = [] := by
    apply List.filter_eq_nil_iff.mpr
    intro k hk
    have h1 : k ∈ catalog.map nkey := mem_dedupKeys.mp hk
    have h2 : k ∈ dedupKeys (enriched.map nkey) := mem_dedupKeys.mpr (h k h1)
    simp [h2]
  simp only [findMissingCoverage]
  rw [if_pos (by rw [hmiss]; rfl)]

/-- Witness for C8 amended: identical tables. -/
theorem claim_C8_amended_witness :
    findMissingCoverage tbl8 tbl8 =
      ⟨["group0", "group1", "group2", "reason"], [], false⟩ :=
  claim_C8_amended tbl8 tbl8 (fun k hk => hk)

end Avito
